import Mathlib

/-!
# GL_Commdlg — verification of the spec against a shallow embedding

This file embeds the pure / decidable content of `src/include/GL_Commdlg/GL_Commdlg.hpp`
(a header-only wrapper over Windows common dialogs) in Lean 4 and proves the spec's
claims about it.

Modelling conventions:
* Wide strings (`std::wstring`) and UTF-8 strings are modelled at the Unicode
  scalar level as `List Char` wherever the claim is encoding-independent; the
  byte/UTF-16 level is modelled explicitly (as `List Nat`) for the round-trip claim.
* C++ exceptions are modelled with `Except CppError`; the two exception kinds the
  header uses (`std::invalid_argument`, `std::runtime_error` with a numeric code)
  are the two constructors.
* Calls into the OS (dialog invocation results, the extended-error query, registry
  enumeration contents, window-procedure message streams) are inputs of the model.
-/

/-- The two exception kinds thrown by the header: `std::invalid_argument`
(malformed caller input) and `std::runtime_error` carrying a numeric OS code. -/
inductive CppError where
  | invalidArgument : CppError
  | runtimeError : Nat → CppError
deriving DecidableEq, Repr

/-- The wide null character `L'\0'` used as token terminator in Win32 buffers. -/
def nulC : Char := Char.ofNat 0

/-- Split a wide buffer at its first null terminator, dropping the terminator:
models reading a null-terminated token (`std::wstring directory = ptr;
ptr += directory.length() + 1`).  A buffer with no null is consumed whole,
matching the 64KB zero-filled buffer having an implicit zero tail. -/
def splitTok (l : List Char) : List Char × List Char :=
  (l.takeWhile (· ≠ nulC), (l.dropWhile (· ≠ nulC)).drop 1)

/-- `*ptr == L'\0'` on the zero-filled buffer: the empty list reads as null. -/
def headIsNul : List Char → Bool
  | [] => true
  | c :: _ => c = nulC

/-- Split a filter entry at the first `'|'` — models
`filter.find('|')` / `substr(0, pipePos)` / `substr(pipePos + 1)` in `buildFilter`
(GL_Commdlg.hpp lines 112–134).  `none` when the entry has no `'|'`. -/
def splitPipe : List Char → Option (List Char × List Char)
  | [] => none
  | c :: rest =>
    if c = '|' then some ([], rest)
    else (splitPipe rest).map (fun p => (c :: p.1, p.2))

/-- `buildFilter` (GL_Commdlg.hpp lines 112–134): for each entry split at the
first `'|'` into description and pattern, throwing `std::invalid_argument` when
the separator is missing; emit `desc NUL pattern NUL` per entry and one final
NUL.  The UTF-8 → wide conversion is the identity at the scalar level. -/
def buildFilter : List (List Char) → Except CppError (List Char)
  | [] => .ok [nulC]
  | f :: rest =>
    match splitPipe f with
    | none => .error .invalidArgument
    | some p => (buildFilter rest).map (fun tail => p.1 ++ nulC :: p.2 ++ nulC :: tail)

/-- Spec-side description of a successful entry: the label is everything before
the first `'|'`. -/
def filterLabel (f : List Char) : List Char := f.takeWhile (· ≠ '|')

/-- Spec-side description of a successful entry: the pattern is everything after
the first `'|'`, used verbatim. -/
def filterPattern (f : List Char) : List Char := (f.dropWhile (· ≠ '|')).drop 1

/-- Spec-side shape of the successful output buffer: label and pattern each
null-terminated, in entry order, with a final terminating null. -/
def specFilterBuffer (fs : List (List Char)) : List Char :=
  (fs.map (fun f => filterLabel f ++ nulC :: filterPattern f ++ [nulC])).flatten ++ [nulC]

/-- Whether a buffer ends with the double null terminator. -/
def endsWithDoubleNul (l : List Char) : Bool :=
  match l.reverse with
  | a :: b :: _ => a = nulC && b = nulC
  | _ => false

/-- The file-list loop of `getOpenMultipleFileNames` (GL_Commdlg.hpp lines
507–514): `while (*ptr != L'\0') { filename = ptr; push(directory + L"\\" +
filename); ptr += filename.length() + 1; }`.  The loop is embedded with an
explicit fuel argument (each iteration consumes at least one character of the
buffer, so fuel = buffer length always suffices); this keeps the definition
structurally recursive and kernel-computable. -/
def parseFilesAux (directory : List Char) : Nat → List Char → List (List Char)
  | 0, _ => []
  | _, [] => []
  | fuel + 1, c :: rest =>
    if c = nulC then []
    else
      (directory ++ '\\' :: c :: rest.takeWhile (· ≠ nulC)) ::
        parseFilesAux directory fuel ((rest.dropWhile (· ≠ nulC)).drop 1)

/-- The file-list loop at its natural fuel. -/
def parseFiles (directory l : List Char) : List (List Char) :=
  parseFilesAux directory l.length l

/-- The multi-select buffer parser of `getOpenMultipleFileNames`
(GL_Commdlg.hpp lines 499–516): first null-terminated token is the directory;
if the very next character is null the directory token is itself the single
full path; otherwise each following token up to an empty token is a filename
joined as `directory + L"\\" + filename`. -/
def parseMultiSelectBuffer (buf : List Char) : List (List Char) :=
  let directory := (splitTok buf).1
  let rest := (splitTok buf).2
  if headIsNul rest then [directory]
  else parseFiles directory rest

/-- Tail of `getOpenMultipleFileNames` (GL_Commdlg.hpp lines 491–516): when the
native call reports failure, a non-zero `CommDlgExtendedError()` is thrown as a
runtime error carrying the code and a zero code (user cancellation) yields the
empty list; on success the returned buffer is parsed. -/
def getOpenMultipleFileNamesResult (callOk : Bool) (extErr : Nat) (buf : List Char) :
    Except CppError (List (List Char)) :=
  if callOk then .ok (parseMultiSelectBuffer buf)
  else if extErr ≠ 0 then .error (.runtimeError extErr)
  else .ok []

/-- Tail of `getOpenFileName` (GL_Commdlg.hpp lines 341–350): failure with a
non-zero extended error throws; failure with zero (cancellation) returns the
empty string; success truncates the buffer at its first null and returns it. -/
def getOpenFileNameResult (callOk : Bool) (extErr : Nat) (buf : List Char) :
    Except CppError (List Char) :=
  if callOk then .ok (splitTok buf).1
  else if extErr ≠ 0 then .error (.runtimeError extErr)
  else .ok []

/-- Tail of `getSaveFileName` (GL_Commdlg.hpp lines 414–423): identical shape
to the open variant. -/
def getSaveFileNameResult (callOk : Bool) (extErr : Nat) (buf : List Char) :
    Except CppError (List Char) :=
  if callOk then .ok (splitTok buf).1
  else if extErr ≠ 0 then .error (.runtimeError extErr)
  else .ok []

/-- A well-formed OS multi-select buffer: the shared directory token, then each
selected filename token, each null-terminated, with the final double-null
(modelled from the documented `OFN_ALLOWMULTISELECT | OFN_EXPLORER` buffer
layout that the parser consumes). -/
def mkMultiBuffer (dir : List Char) (files : List (List Char)) : List Char :=
  dir ++ nulC :: (files.map (· ++ [nulC])).flatten ++ [nulC]

/-- Window-procedure events relevant to `MessageBoxDialogProc` (GL_Commdlg.hpp
lines 1002–1016): a `WM_COMMAND` carrying the low word of `wParam`, and
`WM_CLOSE`. -/
inductive MBEvent where
  | command (btnId : Nat)
  | close
deriving DecidableEq, Repr

/-- `__GCOMMMDLG_BTN_START`, the starting control id of the option buttons. -/
def GCOMMMDLG_BTN_START : Nat := 2000

/-- The message loop of `messageBox` as driven by `MessageBoxDialogProc`:
`WM_COMMAND` with a button id in `[BTN_START, BTN_START + options.size())`
stores that option's caller id in `g_selectedId` and destroys the window
(ending the loop); any other `WM_COMMAND` is ignored; `WM_CLOSE` stores the
reserved id 0 and destroys the window.  `g_selectedId` was initialised to 0,
which is also the result when the loop ends without a selection. -/
def mbLoop (opts : List (Int × List Char)) : List MBEvent → Int
  | [] => 0
  | .command btnId :: rest =>
    if GCOMMMDLG_BTN_START ≤ btnId ∧ btnId < GCOMMMDLG_BTN_START + opts.length then
      ((opts[btnId - GCOMMMDLG_BTN_START]?).map Prod.fst).getD 0
    else mbLoop opts rest
  | .close :: _ => 0

/-- `messageBox` (GL_Commdlg.hpp lines 1060–1118): an empty options list yields
-1 before the window class is registered or any window is created; a failed
`RegisterClassExW` yields 0; a failed `CreateWindowExW` skips the message loop,
yielding the initialised `g_selectedId = 0`; otherwise the loop outcome is
returned.  No exception is thrown on these platform failures. -/
def messageBox (opts : List (Int × List Char)) (regOk createOk : Bool)
    (events : List MBEvent) : Int :=
  if opts.isEmpty then -1
  else if regOk = false then 0
  else if createOk then mbLoop opts events
  else 0

/-- Registry value type tag `REG_SZ`. -/
def REG_SZ : Nat := 1

/-- One enumerated registry value: name, type tag, and (string) payload. -/
structure RegValue where
  name : List Char
  vtype : Nat
  data : List Char
deriving DecidableEq, Repr

/-- `currentFontName.find(L" (")` followed by `substr(0, pos)`: truncate the
value name at the first occurrence of `" ("` (a parenthetical qualifier such as
`" (TrueType)"`); names without one are kept whole. -/
def truncAtParen : List Char → List Char
  | [] => []
  | c :: rest =>
    if c = ' ' ∧ rest.head? = some '(' then []
    else c :: truncAtParen rest

/-- `towlower` applied character-wise (modelled as Unicode simple
lower-casing of the ASCII range, which is what `towlower` does in the "C"
locale). -/
def lowerW (s : List Char) : List Char := s.map Char.toLower

/-- Whether `needle` is a prefix of the second list (character-wise). -/
def hasPrefixChars : List Char → List Char → Bool
  | [], _ => true
  | _ :: _, [] => false
  | a :: as, b :: bs => a == b && hasPrefixChars as bs

/-- `std::wstring::find(sub) != npos`: `needle` occurs somewhere in the
haystack (the empty needle always occurs). -/
def containsSub (needle : List Char) : List Char → Bool
  | [] => needle.isEmpty
  | c :: t => hasPrefixChars needle (c :: t) || containsSub needle t

/-- The name test of the registry scan: truncate the value name at any
parenthetical suffix, lower-case both sides, and look for the query as a
substring. -/
def fontNameMatches (query name : List Char) : Bool :=
  containsSub (lowerW query) (lowerW (truncAtParen name))

/-- The full per-value test: only `REG_SZ` values are considered, and the name
test must succeed. -/
def fontValueMatches (query : List Char) (v : RegValue) : Bool :=
  v.vtype == REG_SZ && fontNameMatches query v.name

/-- Path resolution of a matched value (GL_Commdlg.hpp lines 187–193): a
payload without a `':'` (no drive letter) is resolved under
`<windowsDir>\Fonts\`; otherwise it is used as-is. -/
def resolveFontPath (windowsDir p : List Char) : List Char :=
  if p.contains ':' then p
  else windowsDir ++ "\\Fonts\\".toList ++ p

/-- The enumeration loop shared by `FindFontFileLocalMachine` and
`FindFontFileCurrentUser` (GL_Commdlg.hpp lines 157–197 and 224–264): walk the
values in enumeration order, skip non-`REG_SZ` values, and return the resolved
path of the first value whose processed name contains the query; `""` when no
value matches. -/
def scanFonts (windowsDir query : List Char) : List RegValue → List Char
  | [] => []
  | v :: rest =>
    if v.vtype == REG_SZ then
      if fontNameMatches query v.name then resolveFontPath windowsDir v.data
      else scanFonts windowsDir query rest
    else scanFonts windowsDir query rest

/-- `FindFontFileLocalMachine` (GL_Commdlg.hpp lines 136–201): `""` when the
per-machine key cannot be opened, else the scan of its value list. -/
def FindFontFileLocalMachine (keyOk : Bool) (values : List RegValue)
    (windowsDir query : List Char) : List Char :=
  if keyOk then scanFonts windowsDir query values else []

/-- `FindFontFileCurrentUser` (GL_Commdlg.hpp lines 203–268): identical scan
over the per-user value list. -/
def FindFontFileCurrentUser (keyOk : Bool) (values : List RegValue)
    (windowsDir query : List Char) : List Char :=
  if keyOk then scanFonts windowsDir query values else []

/-- `FindFontFile` (GL_Commdlg.hpp lines 270–276): per-machine scan first; the
per-user scan runs only if the per-machine result is empty. -/
def FindFontFile (machineOk : Bool) (machineValues : List RegValue)
    (userOk : Bool) (userValues : List RegValue)
    (windowsDir query : List Char) : List Char :=
  let tryLm := FindFontFileLocalMachine machineOk machineValues windowsDir query
  if tryLm.isEmpty then FindFontFileCurrentUser userOk userValues windowsDir query
  else tryLm

/-- The output struct of `chooseFont`. -/
structure chooseFontInfo where
  fontFaceName : List Char
  fontPath : List Char
  fontPointSize : Int
deriving DecidableEq, Repr

/-- The result assembly of `chooseFont` (GL_Commdlg.hpp lines 643–645): the
face name is taken from the native `LOGFONTW`, the point size is
`cf.iPointSize / 10` in C++ `int` division (truncation towards zero, `tdiv`),
and the path is the registry lookup on the face name. -/
def chooseFontResult (faceName : List Char) (iPointSize : Int) (machineOk : Bool)
    (machineValues : List RegValue) (userOk : Bool) (userValues : List RegValue)
    (windowsDir : List Char) : chooseFontInfo :=
  { fontFaceName := faceName
    fontPointSize := iPointSize.tdiv 10
    fontPath := FindFontFile machineOk machineValues userOk userValues windowsDir faceName }

/-- Four 8-bit colour channels, as in the header's fallback `SDL_Color`. -/
structure SDL_Color where
  r : Nat
  g : Nat
  b : Nat
  a : Nat
deriving DecidableEq, Repr

/-- The `RGB` macro: packs the channels into a `COLORREF` (`r | g<<8 | b<<16`). -/
def RGBref (r g b : Nat) : Nat := r + 256 * g + 65536 * b

/-- The `GetRValue` macro. -/
def GetRValue (x : Nat) : Nat := x % 256
/-- The `GetGValue` macro. -/
def GetGValue (x : Nat) : Nat := (x / 256) % 256
/-- The `GetBValue` macro. -/
def GetBValue (x : Nat) : Nat := (x / 65536) % 256

/-- `chooseColor` (GL_Commdlg.hpp lines 587–616): `cc.rgbResult` is pre-seeded
with `RGB(r,g,b)` of the in/out colour; when the native call fails with a
non-zero extended error, a runtime error is thrown (the colour untouched);
otherwise — including user cancellation, which leaves `rgbResult` at its
seeded value — all four channels are rewritten from `rgbResult`, with alpha
forced to 255. -/
def chooseColor (c : SDL_Color) (callOk : Bool) (chosen : Nat) (extErr : Nat) :
    Except CppError SDL_Color :=
  let rgbResult := if callOk then chosen else RGBref c.r c.g c.b
  if callOk = false ∧ extErr ≠ 0 then .error (.runtimeError extErr)
  else .ok ⟨GetRValue rgbResult, GetGValue rgbResult, GetBValue rgbResult, 255⟩

/-- Window-procedure events relevant to `PromptDialogProc` (GL_Commdlg.hpp
lines 778–798): `WM_COMMAND` on the OK button carrying the current edit-control
text, `WM_COMMAND` on the Cancel button, `WM_CLOSE`, `WM_SIZE`, and any other
`WM_COMMAND`. -/
inductive PromptEvent where
  | okCommand (editText : List Char)
  | cancelCommand
  | close
  | size (w h : Nat)
  | otherCommand (id : Nat)
deriving DecidableEq, Repr

/-- `GetDlgItemTextW(hDlg, __GCOMMMDLG_IDC_INPUT, buffer, 256)`: the edit text
is captured into a 256-wchar buffer, i.e. truncated to 255 characters. -/
def promptCapture (editText : List Char) : List Char := editText.take 255

/-- The message loop of `promptDialog` as driven by `PromptDialogProc`: OK
captures the edit text, sets `g_did_confirm` and destroys the window; Cancel
and `WM_CLOSE` clear the text, reset `g_did_confirm` and destroy the window;
`WM_SIZE` and unrecognised commands do not end the dialog.  `none` when no
event ends the dialog. -/
def promptRun : List PromptEvent → Option (Bool × List Char)
  | [] => none
  | .okCommand t :: _ => some (true, promptCapture t)
  | .cancelCommand :: _ => some (false, [])
  | .close :: _ => some (false, [])
  | .size _ _ :: rest => promptRun rest
  | .otherCommand _ :: rest => promptRun rest

/-- Events that do not end the prompt dialog. -/
def promptNonFinal : PromptEvent → Bool
  | .size _ _ => true
  | .otherCommand _ => true
  | _ => false

/-- `promptDialog` (GL_Commdlg.hpp lines 897–905): after the loop, a cleared
`g_did_confirm` yields `false` with empty output; a confirmed run yields `true`
with the captured text. -/
def promptDialog (events : List PromptEvent) : Bool × List Char :=
  match promptRun events with
  | some (true, s) => (true, s)
  | _ => (false, [])

/-- A valid Unicode scalar value: below `0x110000` and not a UTF-16 surrogate. -/
def ValidScalar (c : Nat) : Prop := c < 0x110000 ∧ (c < 0xD800 ∨ 0xE000 ≤ c)

instance (c : Nat) : Decidable (ValidScalar c) := by
  unfold ValidScalar
  infer_instance

/-- UTF-8 encoding of one scalar value. -/
def encodeUtf8Char (c : Nat) : List Nat :=
  if c < 0x80 then [c]
  else if c < 0x800 then [0xC0 + c / 64, 0x80 + c % 64]
  else if c < 0x10000 then [0xE0 + c / 4096, 0x80 + (c / 64) % 64, 0x80 + c % 64]
  else [0xF0 + c / 262144, 0x80 + (c / 4096) % 64, 0x80 + (c / 64) % 64, 0x80 + c % 64]

/-- UTF-8 encoding of a scalar sequence. -/
def encodeUtf8 : List Nat → List Nat
  | [] => []
  | c :: cs => encodeUtf8Char c ++ encodeUtf8 cs

/-- Continuation of a two-byte UTF-8 sequence headed by `b0`: one continuation
byte, with the overlong check `0x80 ≤ scalar`. -/
def decodeUtf8Two (b0 : Nat) : List Nat → Option (Nat × List Nat)
  | b1 :: r1 =>
    if 0x80 ≤ b1 ∧ b1 < 0xC0 then
      if 0x80 ≤ (b0 - 0xC0) * 64 + (b1 - 0x80) then
        some ((b0 - 0xC0) * 64 + (b1 - 0x80), r1)
      else none
    else none
  | [] => none

/-- Continuation of a three-byte UTF-8 sequence headed by `b0`: two
continuation bytes, with the overlong and surrogate checks. -/
def decodeUtf8Three (b0 : Nat) : List Nat → Option (Nat × List Nat)
  | b1 :: b2 :: r2 =>
    if (0x80 ≤ b1 ∧ b1 < 0xC0) ∧ (0x80 ≤ b2 ∧ b2 < 0xC0) then
      if 0x800 ≤ (b0 - 0xE0) * 4096 + (b1 - 0x80) * 64 + (b2 - 0x80)
          ∧ ((b0 - 0xE0) * 4096 + (b1 - 0x80) * 64 + (b2 - 0x80) < 0xD800
             ∨ 0xE000 ≤ (b0 - 0xE0) * 4096 + (b1 - 0x80) * 64 + (b2 - 0x80)) then
        some ((b0 - 0xE0) * 4096 + (b1 - 0x80) * 64 + (b2 - 0x80), r2)
      else none
    else none
  | _ => none

/-- Continuation of a four-byte UTF-8 sequence headed by `b0`: three
continuation bytes, with the overlong and range checks. -/
def decodeUtf8Four (b0 : Nat) : List Nat → Option (Nat × List Nat)
  | b1 :: b2 :: b3 :: r3 =>
    if (0x80 ≤ b1 ∧ b1 < 0xC0) ∧ (0x80 ≤ b2 ∧ b2 < 0xC0) ∧ (0x80 ≤ b3 ∧ b3 < 0xC0) then
      if 0x10000 ≤ (b0 - 0xF0) * 262144 + (b1 - 0x80) * 4096
            + (b2 - 0x80) * 64 + (b3 - 0x80)
          ∧ (b0 - 0xF0) * 262144 + (b1 - 0x80) * 4096
            + (b2 - 0x80) * 64 + (b3 - 0x80) < 0x110000 then
        some ((b0 - 0xF0) * 262144 + (b1 - 0x80) * 4096
          + (b2 - 0x80) * 64 + (b3 - 0x80), r3)
      else none
    else none
  | _ => none

/-- Decode one scalar from the head of a UTF-8 byte string (validating:
lone/misplaced continuation bytes, overlong forms, surrogates and out-of-range
values are rejected), returning the scalar and the remaining bytes. -/
def decodeUtf8Step : List Nat → Option (Nat × List Nat)
  | [] => none
  | b0 :: r0 =>
    if b0 < 0x80 then some (b0, r0)
    else if b0 < 0xC0 then none
    else if b0 < 0xE0 then decodeUtf8Two b0 r0
    else if b0 < 0xF0 then decodeUtf8Three b0 r0
    else if b0 < 0xF8 then decodeUtf8Four b0 r0
    else none

/-- The UTF-8 decoding loop.  The fuel argument (each step consumes at least
one byte, so fuel = byte count always suffices) keeps the recursion structural
and kernel-computable. -/
def decodeUtf8Aux : Nat → List Nat → Option (List Nat)
  | _, [] => some []
  | 0, _ :: _ => none
  | fuel + 1, b0 :: r0 =>
    (decodeUtf8Step (b0 :: r0)).bind
      (fun p => (decodeUtf8Aux fuel p.2).map (fun cs => p.1 :: cs))

/-- Validating UTF-8 decoder, yielding the scalar sequence. -/
def decodeUtf8 (l : List Nat) : Option (List Nat) := decodeUtf8Aux l.length l

/-- UTF-16 encoding of one scalar value (BMP scalars directly, others as a
surrogate pair). -/
def encodeUtf16Char (c : Nat) : List Nat :=
  if c < 0x10000 then [c]
  else [0xD800 + (c - 0x10000) / 0x400, 0xDC00 + (c - 0x10000) % 0x400]

/-- UTF-16 encoding of a scalar sequence. -/
def encodeUtf16 : List Nat → List Nat
  | [] => []
  | c :: cs => encodeUtf16Char c ++ encodeUtf16 cs

/-- Continuation of a surrogate pair headed by high surrogate `u0`: one low
surrogate unit. -/
def decodeUtf16Pair (u0 : Nat) : List Nat → Option (Nat × List Nat)
  | u1 :: r1 =>
    if 0xDC00 ≤ u1 ∧ u1 < 0xE000 then
      some (0x10000 + (u0 - 0xD800) * 0x400 + (u1 - 0xDC00), r1)
    else none
  | [] => none

/-- Decode one scalar from the head of a UTF-16 unit string (validating:
unpaired surrogates and out-of-range code units are rejected). -/
def decodeUtf16Step : List Nat → Option (Nat × List Nat)
  | [] => none
  | u0 :: r0 =>
    if u0 < 0xD800 ∨ (0xE000 ≤ u0 ∧ u0 < 0x10000) then some (u0, r0)
    else if 0xD800 ≤ u0 ∧ u0 < 0xDC00 then decodeUtf16Pair u0 r0
    else none

/-- The UTF-16 decoding loop, fuel-bounded like the UTF-8 one. -/
def decodeUtf16Aux : Nat → List Nat → Option (List Nat)
  | _, [] => some []
  | 0, _ :: _ => none
  | fuel + 1, u0 :: r0 =>
    (decodeUtf16Step (u0 :: r0)).bind
      (fun p => (decodeUtf16Aux fuel p.2).map (fun cs => p.1 :: cs))

/-- Validating UTF-16 decoder, yielding the scalar sequence. -/
def decodeUtf16 (l : List Nat) : Option (List Nat) := decodeUtf16Aux l.length l

/-- `utf8ToWide` (GL_Commdlg.hpp lines 52–74): empty input returns the empty
wide string without invoking the conversion primitive; otherwise
`MultiByteToWideChar(CP_UTF8, ...)` is modelled as UTF-8 decoding to scalars
followed by UTF-16 encoding (Windows wide strings are UTF-16); a conversion
failure throws a runtime error carrying `GetLastError()`. -/
def utf8ToWide (utf8 : List Nat) : Except CppError (List Nat) :=
  if utf8.isEmpty then .ok []
  else
    match decodeUtf8 utf8 with
    | some scalars => .ok (encodeUtf16 scalars)
    | none => .error (.runtimeError 0)

/-- `wideToUtf8` (GL_Commdlg.hpp lines 82–104): empty input returns the empty
string without invoking the conversion primitive; otherwise
`WideCharToMultiByte(CP_UTF8, ...)` is modelled as UTF-16 decoding followed by
UTF-8 encoding; a conversion failure throws a runtime error. -/
def wideToUtf8 (wide : List Nat) : Except CppError (List Nat) :=
  if wide.isEmpty then .ok []
  else
    match decodeUtf16 wide with
    | some scalars => .ok (encodeUtf8 scalars)
    | none => .error (.runtimeError 0)

/-- A valid UTF-8 byte string: the UTF-8 encoding of some sequence of valid
Unicode scalar values. -/
def ValidUtf8 (s : List Nat) : Prop :=
  ∃ cs : List Nat, (∀ c ∈ cs, ValidScalar c) ∧ s = encodeUtf8 cs

-- ### DEFS-END ###

/-! ## Theorems -/

theorem splitPipe_eq_none {f : List Char} : splitPipe f = none ↔ '|' ∉ f := by
  induction f with
  | nil => simp [splitPipe]
  | cons c rest ih =>
    by_cases hc : c = '|'
    · subst hc; simp [splitPipe]
    · have hc' : ¬ '|' = c := fun h => hc h.symm
      cases hsp : splitPipe rest with
      | none =>
        have hnr : '|' ∉ rest := ih.mp hsp
        simp [splitPipe, hc, hsp, hnr, hc']
      | some p =>
        have hmr : '|' ∈ rest := by
          by_contra hn
          rw [ih.mpr hn] at hsp
          cases hsp
        simp [splitPipe, hc, hsp, hmr]

theorem splitPipe_eq_some {f : List Char} (h : '|' ∈ f) :
    splitPipe f = some (filterLabel f, filterPattern f) := by
  induction f with
  | nil => cases h
  | cons c rest ih =>
    by_cases hc : c = '|'
    · subst hc
      simp [splitPipe, filterLabel, filterPattern, List.takeWhile, List.dropWhile]
    · have hr : '|' ∈ rest := by
        cases h with
        | head => exact absurd rfl hc
        | tail _ h' => exact h'
      simp [splitPipe, hc, ih hr, filterLabel, filterPattern, List.takeWhile, List.dropWhile]

theorem specFilterBuffer_cons (f : List Char) (fs : List (List Char)) :
    specFilterBuffer (f :: fs) =
      (filterLabel f ++ nulC :: filterPattern f ++ [nulC]) ++ specFilterBuffer fs := by
  simp [specFilterBuffer, List.flatten_cons, List.append_assoc]

theorem buildFilter_error_iff (fs : List (List Char)) :
    buildFilter fs = .error .invalidArgument ↔ ∃ f ∈ fs, '|' ∉ f := by
  induction fs with
  | nil => simp [buildFilter]
  | cons f rest ih =>
    constructor
    · intro h
      cases hp : splitPipe f with
      | none => exact ⟨f, by simp, splitPipe_eq_none.mp hp⟩
      | some p =>
        simp only [buildFilter, hp] at h
        cases hb : buildFilter rest with
        | ok v => rw [hb] at h; simp [Except.map] at h
        | error e =>
          rw [hb] at h
          simp [Except.map] at h
          obtain ⟨g, hg, hgp⟩ := ih.mp (by rw [hb, h])
          exact ⟨g, List.mem_cons_of_mem _ hg, hgp⟩
    · rintro ⟨g, hg, hgp⟩
      cases List.mem_cons.mp hg with
      | inl he =>
        have : splitPipe f = none := splitPipe_eq_none.mpr (he ▸ hgp)
        simp [buildFilter, this]
      | inr ht =>
        have herr := ih.mpr ⟨g, ht, hgp⟩
        cases hp : splitPipe f with
        | none => simp [buildFilter, hp]
        | some p => simp [buildFilter, hp, herr, Except.map]

theorem buildFilter_ok (fs : List (List Char)) (h : ∀ f ∈ fs, '|' ∈ f) :
    buildFilter fs = .ok (specFilterBuffer fs) := by
  induction fs with
  | nil => simp [buildFilter, specFilterBuffer]
  | cons f rest ih =>
    have hf : '|' ∈ f := h f (by simp)
    have hrest := ih (fun g hg => h g (by simp [hg]))
    rw [specFilterBuffer_cons]
    simp [buildFilter, splitPipe_eq_some hf, hrest, Except.map, List.append_assoc]

theorem specFilterBuffer_ends (fs : List (List Char)) (h : fs ≠ []) :
    endsWithDoubleNul (specFilterBuffer fs) = true := by
  induction fs with
  | nil => exact absurd rfl h
  | cons f rest ih =>
    cases rest with
    | nil =>
      rw [specFilterBuffer_cons]
      simp [specFilterBuffer, endsWithDoubleNul, List.reverse_append]
    | cons g rest' =>
      rw [specFilterBuffer_cons]
      have := ih (by simp)
      unfold endsWithDoubleNul at this ⊢
      rw [List.reverse_append]
      cases hr : (specFilterBuffer (g :: rest')).reverse with
      | nil => rw [hr] at this; cases this
      | cons a t =>
        cases t with
        | nil => rw [hr] at this; cases this
        | cons b t' => rw [hr] at this; simpa using this

/-- **C2** (amended for the empty list): `buildFilter` raises
`std::invalid_argument` (distinct from a runtime error) iff some entry contains
no `'|'`; otherwise it returns the buffer in which each entry is split at its
first `'|'` into label and pattern (pattern verbatim), each null-terminated in
entry order, followed by a final null — so for a **nonempty** entry list the
buffer ends with a double null terminator (the empty list yields the single
null).  `["Text(*.txt)|*.txt"]` gives label `"Text(*.txt)"` and pattern
`"*.txt"`; `"badfilter"` raises the format error. -/
theorem buildFilter_spec :
    (∀ fs : List (List Char), buildFilter fs = .error .invalidArgument ↔ ∃ f ∈ fs, '|' ∉ f)
    ∧ (∀ fs : List (List Char), (∀ f ∈ fs, '|' ∈ f) → buildFilter fs = .ok (specFilterBuffer fs))
    ∧ (∀ fs : List (List Char), fs ≠ [] → endsWithDoubleNul (specFilterBuffer fs) = true)
    ∧ buildFilter ["Text(*.txt)|*.txt".toList] =
        .ok ("Text(*.txt)".toList ++ nulC :: "*.txt".toList ++ [nulC, nulC])
    ∧ buildFilter ["badfilter".toList] = .error .invalidArgument := by
  refine ⟨buildFilter_error_iff, buildFilter_ok, specFilterBuffer_ends, ?_, ?_⟩
  · rfl
  · rfl

/-- **C2 counterexample**: on the empty filter list (every entry vacuously
contains `'|'`, so the claim's success clause applies), `buildFilter` returns
the one-character buffer `[NUL]`, which does not end with a double null
terminator — refuting the claim as stated. -/
theorem buildFilter_empty_counterexample :
    buildFilter [] = .ok [nulC] ∧ endsWithDoubleNul [nulC] = false :=
  ⟨rfl, rfl⟩

/-- Witness for C2: the hypotheses of `buildFilter_spec` hold at the concrete
filter list `["A|*.a"]`. -/
theorem buildFilter_spec_witness :
    buildFilter ["A|*.a".toList] = .ok (specFilterBuffer ["A|*.a".toList])
    ∧ endsWithDoubleNul (specFilterBuffer ["A|*.a".toList]) = true :=
  ⟨buildFilter_spec.2.1 ["A|*.a".toList] (by decide),
   buildFilter_spec.2.2.1 ["A|*.a".toList] (by decide)⟩

theorem takeWhile_append_nul (pre rest : List Char) (h : nulC ∉ pre) :
    (pre ++ nulC :: rest).takeWhile (· ≠ nulC) = pre := by
  induction pre with
  | nil => simp [List.takeWhile]
  | cons c p ih =>
    have hc : c ≠ nulC := fun he => h (he ▸ List.mem_cons_self c p)
    have hp : nulC ∉ p := fun hm => h (List.mem_cons_of_mem _ hm)
    simp [List.takeWhile, hc]
    simpa using ih hp

theorem dropWhile_append_nul (pre rest : List Char) (h : nulC ∉ pre) :
    (pre ++ nulC :: rest).dropWhile (· ≠ nulC) = nulC :: rest := by
  induction pre with
  | nil => simp [List.dropWhile]
  | cons c p ih =>
    have hc : c ≠ nulC := fun he => h (he ▸ List.mem_cons_self c p)
    have hp : nulC ∉ p := fun hm => h (List.mem_cons_of_mem _ hm)
    simp [List.dropWhile, hc]
    simpa using ih hp

theorem splitTok_append (pre rest : List Char) (h : nulC ∉ pre) :
    splitTok (pre ++ nulC :: rest) = (pre, rest) := by
  unfold splitTok
  rw [takeWhile_append_nul pre rest h, dropWhile_append_nul pre rest h]
  rfl

theorem parseFilesAux_spec (dir : List Char) :
    ∀ (files : List (List Char)) (fuel : Nat),
      (∀ f ∈ files, f ≠ [] ∧ nulC ∉ f) →
      ((files.map (· ++ [nulC])).flatten ++ [nulC]).length ≤ fuel →
      parseFilesAux dir fuel ((files.map (· ++ [nulC])).flatten ++ [nulC]) =
        files.map (fun f => dir ++ '\\' :: f) := by
  intro files
  induction files with
  | nil =>
    intro fuel _ hfuel
    simp at hfuel
    obtain ⟨fuel', rfl⟩ : ∃ k, fuel = k + 1 := ⟨fuel - 1, by omega⟩
    simp [parseFilesAux]
  | cons f fs ih =>
    intro fuel hwf hfuel
    obtain ⟨hne, hnul⟩ := hwf f (by simp)
    obtain ⟨c, f', rfl⟩ : ∃ c f', f = c :: f' := by
      cases f with
      | nil => exact absurd rfl hne
      | cons c f' => exact ⟨c, f', rfl⟩
    have hc : c ≠ nulC := fun he => hnul (he ▸ List.mem_cons_self c f')
    have hf' : nulC ∉ f' := fun hm => hnul (List.mem_cons_of_mem _ hm)
    have hshape :
        (((c :: f') :: fs).map (· ++ [nulC])).flatten ++ [nulC] =
          c :: (f' ++ nulC :: ((fs.map (· ++ [nulC])).flatten ++ [nulC])) := by
      simp [List.flatten_cons, List.append_assoc]
    rw [hshape] at hfuel ⊢
    obtain ⟨fuel', rfl⟩ : ∃ k, fuel = k + 1 := by
      cases fuel with
      | zero => simp at hfuel
      | succ k => exact ⟨k, rfl⟩
    rw [parseFilesAux]
    rw [if_neg hc]
    rw [takeWhile_append_nul f' _ hf', dropWhile_append_nul f' _ hf']
    simp only [List.drop_one, List.tail_cons]
    have hfuel' : ((fs.map (· ++ [nulC])).flatten ++ [nulC]).length ≤ fuel' := by
      simp at hfuel ⊢
      omega
    rw [ih fuel' (fun g hg => hwf g (List.mem_cons_of_mem _ hg)) hfuel']
    simp

/-- **C1**: the multi-select buffer parser: the first null-terminated token is
the shared directory; if the token after it is empty the result is the
one-element list holding that token as the full path; otherwise every
subsequent token `t` up to the first empty token contributes
`directory ++ '\\' ++ t`.  The two synthetic buffers of the spec parse to
`["C:\dir\a.txt", "C:\dir\b.txt"]` and `["C:\dir\only.txt"]`. -/
theorem getOpenMultipleFileNames_parse_spec :
    (∀ (dir : List Char) (files : List (List Char)) (extErr : Nat),
      nulC ∉ dir → (∀ f ∈ files, f ≠ [] ∧ nulC ∉ f) →
      getOpenMultipleFileNamesResult true extErr (mkMultiBuffer dir files) =
        .ok (if files = [] then [dir] else files.map (fun f => dir ++ '\\' :: f)))
    ∧ getOpenMultipleFileNamesResult true 0
        ("C:\\dir".toList ++ nulC :: "a.txt".toList ++ nulC :: "b.txt".toList ++ [nulC, nulC]) =
        .ok ["C:\\dir\\a.txt".toList, "C:\\dir\\b.txt".toList]
    ∧ getOpenMultipleFileNamesResult true 0 ("C:\\dir\\only.txt".toList ++ [nulC, nulC]) =
        .ok ["C:\\dir\\only.txt".toList] := by
  refine ⟨?_, by rfl, by rfl⟩
  intro dir files extErr hdir hwf
  have hbuf : mkMultiBuffer dir files =
      dir ++ nulC :: ((files.map (· ++ [nulC])).flatten ++ [nulC]) := by
    simp [mkMultiBuffer]
  simp only [getOpenMultipleFileNamesResult, if_true]
  rw [hbuf]
  simp only [parseMultiSelectBuffer]
  rw [splitTok_append dir _ hdir]
  cases files with
  | nil => simp [headIsNul]
  | cons f fs =>
    obtain ⟨hne, hnul⟩ := hwf f (by simp)
    obtain ⟨c, f', rfl⟩ : ∃ c f', f = c :: f' := by
      cases f with
      | nil => exact absurd rfl hne
      | cons c f' => exact ⟨c, f', rfl⟩
    have hc : c ≠ nulC := fun he => hnul (he ▸ List.mem_cons_self c f')
    have hshape :
        (((c :: f') :: fs).map (· ++ [nulC])).flatten ++ [nulC] =
          c :: (f' ++ nulC :: ((fs.map (· ++ [nulC])).flatten ++ [nulC])) := by
      simp [List.flatten_cons, List.append_assoc]
    have hhead : headIsNul (((((c :: f') :: fs).map (· ++ [nulC])).flatten ++ [nulC]))
        = false := by
      rw [hshape]
      simp [headIsNul, hc]
    rw [if_neg (by rw [hhead]; simp)]
    unfold parseFiles
    rw [parseFilesAux_spec dir ((c :: f') :: fs) _ hwf (le_refl _)]
    simp

/-- Witness for C1: the general clause of the parse theorem applied at the
concrete buffer `"D:\x" NUL "f.txt" NUL NUL`. -/
theorem getOpenMultipleFileNames_parse_witness :
    getOpenMultipleFileNamesResult true 0 (mkMultiBuffer "D:\\x".toList ["f.txt".toList]) =
      .ok (if ["f.txt".toList] = ([] : List (List Char)) then ["D:\\x".toList]
           else ["f.txt".toList].map (fun f => "D:\\x".toList ++ '\\' :: f)) :=
  getOpenMultipleFileNames_parse_spec.1 "D:\\x".toList ["f.txt".toList] 0
    (by decide) (by decide)

/-- **C6**: for the file-open, file-save and multi-select pickers, a failed
native call with extended error 0 (user cancellation) returns the empty result
without raising; a failed native call with a non-zero extended error raises a
runtime error carrying that code. -/
theorem dialog_cancel_spec :
    ∀ (extErr : Nat) (buf : List Char),
      (extErr = 0 →
        getOpenFileNameResult false extErr buf = .ok []
        ∧ getSaveFileNameResult false extErr buf = .ok []
        ∧ getOpenMultipleFileNamesResult false extErr buf = .ok [])
      ∧ (extErr ≠ 0 →
        getOpenFileNameResult false extErr buf = .error (.runtimeError extErr)
        ∧ getSaveFileNameResult false extErr buf = .error (.runtimeError extErr)
        ∧ getOpenMultipleFileNamesResult false extErr buf = .error (.runtimeError extErr)) := by
  intro extErr buf
  constructor
  · intro h
    subst h
    exact ⟨rfl, rfl, rfl⟩
  · intro h
    refine ⟨?_, ?_, ?_⟩ <;>
      simp [getOpenFileNameResult, getSaveFileNameResult,
        getOpenMultipleFileNamesResult, h]

/-- Witness for C6: both branches at the concrete extended-error codes 0 and 5. -/
theorem dialog_cancel_spec_witness :
    (getOpenFileNameResult false 0 [] = .ok []
      ∧ getSaveFileNameResult false 0 [] = .ok []
      ∧ getOpenMultipleFileNamesResult false 0 [] = .ok [])
    ∧ (getOpenFileNameResult false 5 [] = .error (.runtimeError 5)
      ∧ getSaveFileNameResult false 5 [] = .error (.runtimeError 5)
      ∧ getOpenMultipleFileNamesResult false 5 [] = .error (.runtimeError 5)) :=
  ⟨(dialog_cancel_spec 0 []).1 rfl, (dialog_cancel_spec 5 []).2 (by decide)⟩

/-- **C3**: `messageBox` with an empty options list returns -1 regardless of
registration/creation outcome or events (the -1 exit precedes both); selecting
the button of option `i` returns that option's caller-supplied id; closing the
window returns the reserved id 0; and selecting id 7 from
`[(7,"Yes"),(8,"No")]` returns 7. -/
theorem messageBox_spec :
    (∀ (regOk createOk : Bool) (events : List MBEvent),
      messageBox [] regOk createOk events = -1)
    ∧ (∀ (opts : List (Int × List Char)) (i : Nat) (h : i < opts.length)
        (rest : List MBEvent),
      messageBox opts true true (.command (GCOMMMDLG_BTN_START + i) :: rest) =
        (opts.get ⟨i, h⟩).fst)
    ∧ (∀ (opts : List (Int × List Char)) (rest : List MBEvent), opts ≠ [] →
      messageBox opts true true (.close :: rest) = 0)
    ∧ messageBox [(7, "Yes".toList), (8, "No".toList)] true true
        [.command GCOMMMDLG_BTN_START] = 7 := by
  refine ⟨?_, ?_, ?_, by rfl⟩
  · intro regOk createOk events
    simp [messageBox]
  · intro opts i h rest
    have hne : opts.isEmpty = false := by
      cases opts with
      | nil => simp at h
      | cons o os => rfl
    simp only [messageBox, hne, Bool.false_eq_true, if_false, if_true, reduceCtorEq]
    rw [mbLoop, if_pos ⟨Nat.le_add_right _ _, by omega⟩]
    have hidx : GCOMMMDLG_BTN_START + i - GCOMMMDLG_BTN_START = i := by omega
    rw [hidx, List.getElem?_eq_getElem h]
    simp [List.get_eq_getElem]
  · intro opts rest hne
    have hne' : opts.isEmpty = false := by
      cases opts with
      | nil => exact absurd rfl hne
      | cons o os => rfl
    simp [messageBox, hne', mbLoop]

/-- Witness for C3: the selection clause at `i = 1` of `[(7,"Yes"),(8,"No")]`
(returning 8) and the close clause at a singleton list. -/
theorem messageBox_spec_witness :
    messageBox [(7, "Yes".toList), (8, "No".toList)] true true
        [.command (GCOMMMDLG_BTN_START + 1)] =
      ([((7 : Int), "Yes".toList), (8, "No".toList)].get ⟨1, by decide⟩).fst
    ∧ messageBox [(7, "Yes".toList)] true true [.close] = 0 :=
  ⟨messageBox_spec.2.1 [(7, "Yes".toList), (8, "No".toList)] 1 (by decide) [],
   messageBox_spec.2.2.1 [(7, "Yes".toList)] [] (by decide)⟩

/-- **C9**: with a non-empty options list, a failed window-class registration
makes `messageBox` return 0 before any window exists, and a failed window
creation skips the message loop and returns the initialised 0 — so a result of
0 does not imply the user closed the dialog, and no exception is raised (the
model's result type is a plain integer on these paths). -/
theorem messageBox_failure_spec :
    ∀ (opts : List (Int × List Char)), opts ≠ [] →
      ∀ (createOk : Bool) (events : List MBEvent),
        messageBox opts false createOk events = 0
        ∧ messageBox opts true false events = 0 := by
  intro opts hne createOk events
  have hne' : opts.isEmpty = false := by
    cases opts with
    | nil => exact absurd rfl hne
    | cons o os => rfl
  constructor <;> simp [messageBox, hne']

/-- Witness for C9: both failure paths at a concrete non-empty options list. -/
theorem messageBox_failure_spec_witness :
    messageBox [(7, "Yes".toList)] false true [] = 0
    ∧ messageBox [(7, "Yes".toList)] true false [] = 0 :=
  messageBox_failure_spec [(7, "Yes".toList)] (by decide) true []

/-- **C7**: the reported font point size is the native tenths-of-a-point field
divided by 10 with truncating integer division — characterised for nonnegative
native values by `size * 10 ≤ native < size * 10 + 10` — and the native value
125 yields 12, not 13. -/
theorem chooseFont_pointSize_spec :
    (∀ (iPointSize : Int) (faceName windowsDir : List Char) (machineOk userOk : Bool)
        (mv uv : List RegValue),
      0 ≤ iPointSize →
        (chooseFontResult faceName iPointSize machineOk mv userOk uv
            windowsDir).fontPointSize * 10 ≤ iPointSize
        ∧ iPointSize < (chooseFontResult faceName iPointSize machineOk mv userOk uv
            windowsDir).fontPointSize * 10 + 10)
    ∧ (chooseFontResult [] 125 true [] true [] []).fontPointSize = 12
    ∧ (chooseFontResult [] 125 true [] true [] []).fontPointSize ≠ 13 := by
  refine ⟨?_, by rfl, by decide⟩
  intro iPointSize faceName windowsDir machineOk userOk mv uv hn
  obtain ⟨m, rfl⟩ := Int.eq_ofNat_of_zero_le hn
  have htd : ((m : Int)).tdiv 10 = ((m / 10 : Nat) : Int) := rfl
  simp only [chooseFontResult, htd]
  have h1 := Nat.div_add_mod m 10
  have h2 : m % 10 < 10 := Nat.mod_lt m (by norm_num)
  constructor <;> omega

/-- Witness for C7: the truncation bounds at the concrete native value 125. -/
theorem chooseFont_pointSize_spec_witness :
    (chooseFontResult [] 125 true [] true [] []).fontPointSize * 10 ≤ 125
    ∧ (125 : Int) < (chooseFontResult [] 125 true [] true [] []).fontPointSize * 10 + 10 :=
  chooseFont_pointSize_spec.1 125 [] [] true true [] [] (by decide)

/-- **C10**: `chooseColor` rewrites all four channels after the native call in
every non-throwing path; on cancellation (failed call, extended error 0) the
pre-seeded `rgbResult` makes r, g, b come back unchanged while alpha is forced
to 255 — so a non-opaque input alpha is overwritten even on cancellation. -/
theorem chooseColor_spec :
    ∀ (c : SDL_Color), c.r < 256 → c.g < 256 → c.b < 256 →
      ∀ chosen : Nat,
        chooseColor c false chosen 0 = .ok ⟨c.r, c.g, c.b, 255⟩
        ∧ chooseColor c true chosen 0 =
            .ok ⟨GetRValue chosen, GetGValue chosen, GetBValue chosen, 255⟩ := by
  intro c hr hg hb chosen
  constructor
  · simp only [chooseColor, RGBref, GetRValue, GetGValue, GetBValue]
    rw [if_neg (by simp)]
    simp only [Bool.false_eq_true, if_false, Except.ok.injEq, SDL_Color.mk.injEq]
    refine ⟨?_, ?_, ?_, ?_⟩ <;> first | omega | trivial
  · simp [chooseColor]

/-- Witness for C10: cancelling with input colour (1,2,3,alpha 100) yields
(1,2,3,alpha 255): the colour channels survive, the alpha does not. -/
theorem chooseColor_spec_witness :
    chooseColor ⟨1, 2, 3, 100⟩ false 7 0 = .ok ⟨1, 2, 3, 255⟩
    ∧ chooseColor ⟨1, 2, 3, 100⟩ true 7 0 =
        .ok ⟨GetRValue 7, GetGValue 7, GetBValue 7, 255⟩ :=
  chooseColor_spec ⟨1, 2, 3, 100⟩ (by decide) (by decide) (by decide) 7

theorem promptRun_append_nonfinal (pre : List PromptEvent)
    (hpre : ∀ e ∈ pre, promptNonFinal e = true) (evs : List PromptEvent) :
    promptRun (pre ++ evs) = promptRun evs := by
  induction pre with
  | nil => rfl
  | cons e p ih =>
    have he := hpre e (by simp)
    have hp : ∀ e ∈ p, promptNonFinal e = true :=
      fun e' he' => hpre e' (List.mem_cons_of_mem _ he')
    cases e with
    | okCommand t => simp [promptNonFinal] at he
    | cancelCommand => simp [promptNonFinal] at he
    | close => simp [promptNonFinal] at he
    | size w h => simp [promptRun, ih hp]
    | otherCommand i => simp [promptRun, ih hp]

/-- **C8**: for every event sequence, ending the prompt dialog via the OK
command returns `true` with the text captured (into the 256-wchar buffer) at
confirmation; ending it via the Cancel command or the window-close action
returns `false` with the empty string. -/
theorem promptDialog_spec :
    ∀ (pre : List PromptEvent), (∀ e ∈ pre, promptNonFinal e = true) →
      (∀ (t : List Char) (rest : List PromptEvent),
        promptDialog (pre ++ .okCommand t :: rest) = (true, promptCapture t))
      ∧ (∀ rest : List PromptEvent,
        promptDialog (pre ++ .cancelCommand :: rest) = (false, []))
      ∧ (∀ rest : List PromptEvent,
        promptDialog (pre ++ .close :: rest) = (false, [])) := by
  intro pre hpre
  refine ⟨?_, ?_, ?_⟩ <;> intro a <;>
    first
      | (intro rest
         simp [promptDialog, promptRun_append_nonfinal pre hpre, promptRun])
      | simp [promptDialog, promptRun_append_nonfinal pre hpre, promptRun]

/-- Witness for C8: a resize event followed by OK with the text "hi", and the
cancel/close clauses behind the same non-final prefix. -/
theorem promptDialog_spec_witness :
    promptDialog ([PromptEvent.size 3 4] ++ .okCommand "hi".toList :: []) =
      (true, promptCapture "hi".toList)
    ∧ promptDialog ([PromptEvent.size 3 4] ++ .cancelCommand :: []) = (false, [])
    ∧ promptDialog ([PromptEvent.size 3 4] ++ .close :: []) = (false, []) :=
  ⟨(promptDialog_spec [.size 3 4] (by decide)).1 "hi".toList [],
   (promptDialog_spec [.size 3 4] (by decide)).2.1 [],
   (promptDialog_spec [.size 3 4] (by decide)).2.2 []⟩

theorem scanFonts_eq_find (windowsDir query : List Char) (vs : List RegValue) :
    scanFonts windowsDir query vs =
      match vs.find? (fontValueMatches query) with
      | some v => resolveFontPath windowsDir v.data
      | none => [] := by
  induction vs with
  | nil => rfl
  | cons v rest ih =>
    by_cases h1 : (v.vtype == REG_SZ) = true
    · by_cases h2 : fontNameMatches query v.name = true
      · have hv : fontValueMatches query v = true := by
          simp [fontValueMatches, h1, h2]
        simp only [scanFonts, if_pos h1, if_pos h2, List.find?_cons_of_pos _ hv]
      · have hv : fontValueMatches query v = false := by
          simp [fontValueMatches, h2]
        have hneg : ¬ (fontValueMatches query v = true) := by simp [hv]
        simp only [scanFonts, if_pos h1, if_neg h2,
          List.find?_cons_of_neg _ hneg, ih]
    · have hv : fontValueMatches query v = false := by
        simp [fontValueMatches, h1]
      have hneg : ¬ (fontValueMatches query v = true) := by simp [hv]
      simp only [scanFonts, if_neg h1, List.find?_cons_of_neg _ hneg, ih]

theorem resolveFontPath_ne_nil (windowsDir p : List Char) :
    resolveFontPath windowsDir p ≠ [] := by
  unfold resolveFontPath
  by_cases h : p.contains ':' = true
  · rw [if_pos h]
    intro hn
    rw [hn] at h
    simp at h
  · rw [if_neg h]
    intro hn
    rcases List.append_eq_nil.mp hn with ⟨h1, h2⟩
    rcases List.append_eq_nil.mp h1 with ⟨h3, h4⟩
    exact absurd h4 (by decide)

/-- **C4** (amended: only string-typed `REG_SZ` values participate in the
match): a registry value wins iff it is `REG_SZ` and its name, truncated at a
parenthetical suffix and lower-cased, contains the lower-cased query; the first
match in enumeration order wins; the per-machine list is scanned first and the
per-user list only when the machine scan found nothing; and when neither
matches the result is the empty path, not an error.  Concretely, the query
"aRiAl" finds "Arial (TrueType)" and resolves its drive-letter-free payload
under the Fonts directory. -/
theorem FindFontFile_spec :
    (∀ (machineValues userValues : List RegValue) (windowsDir query : List Char),
      FindFontFile true machineValues true userValues windowsDir query =
        (match machineValues.find? (fontValueMatches query) with
         | some v => resolveFontPath windowsDir v.data
         | none =>
           match userValues.find? (fontValueMatches query) with
           | some v => resolveFontPath windowsDir v.data
           | none => []))
    ∧ FindFontFile true [⟨"Arial (TrueType)".toList, REG_SZ, "arial.ttf".toList⟩] true []
        "C:\\WINDOWS".toList "aRiAl".toList = "C:\\WINDOWS\\Fonts\\arial.ttf".toList := by
  constructor
  · intro mv uv wd q
    simp only [FindFontFile, FindFontFileLocalMachine, FindFontFileCurrentUser,
      if_true, scanFonts_eq_find]
    cases hf : mv.find? (fontValueMatches q) with
    | some v =>
      have hne : (resolveFontPath wd v.data).isEmpty = false := by
        cases hres : resolveFontPath wd v.data with
        | nil => exact absurd hres (resolveFontPath_ne_nil _ _)
        | cons a t => rfl
      simp [hf, hne]
    | none => simp [hf]
  · rfl

/-- **C4 counterexample**: a registry value whose processed name contains the
query but whose type is not `REG_SZ` (here 7, `REG_MULTI_SZ`) is skipped by the
code, so `FindFontFile` returns the empty path although the claim's stated
match condition holds for it. -/
theorem FindFontFile_counterexample :
    fontNameMatches "arial".toList "Arial (TrueType)".toList = true
    ∧ FindFontFile true [⟨"Arial (TrueType)".toList, 7, "arial.ttf".toList⟩] true []
        "C:\\WINDOWS".toList "arial".toList = [] :=
  ⟨rfl, rfl⟩

theorem encodeUtf8Char_ne_nil (c : Nat) : encodeUtf8Char c ≠ [] := by
  unfold encodeUtf8Char
  split_ifs <;> simp

theorem encodeUtf16Char_ne_nil (c : Nat) : encodeUtf16Char c ≠ [] := by
  unfold encodeUtf16Char
  split_ifs <;> simp

theorem decodeUtf8Step_encodeChar {c : Nat} (h : ValidScalar c) (t : List Nat) :
    decodeUtf8Step (encodeUtf8Char c ++ t) = some (c, t) := by
  obtain ⟨hlt, hs⟩ := h
  unfold encodeUtf8Char
  by_cases h1 : c < 0x80
  · rw [if_pos h1]
    simp only [List.cons_append, List.nil_append, decodeUtf8Step]
    rw [if_pos h1]
  · rw [if_neg h1]
    by_cases h2 : c < 0x800
    · rw [if_pos h2]
      simp only [List.cons_append, List.nil_append, decodeUtf8Step]
      have hq1 : 2 ≤ c / 64 := by omega
      have hq2 : c / 64 < 32 := by omega
      have hr : c % 64 < 64 := Nat.mod_lt _ (by norm_num)
      have hA : ¬ (0xC0 + c / 64 < 0x80) := by omega
      have hB : ¬ (0xC0 + c / 64 < 0xC0) := by omega
      have hC : 0xC0 + c / 64 < 0xE0 := by omega
      rw [if_neg hA, if_neg hB, if_pos hC]
      simp only [decodeUtf8Two]
      have hD : 0x80 ≤ 0x80 + c % 64 ∧ 0x80 + c % 64 < 0xC0 := ⟨by omega, by omega⟩
      have hX : (0xC0 + c / 64 - 0xC0) * 64 + (0x80 + c % 64 - 0x80) = c := by omega
      rw [if_pos hD, hX, if_pos (by omega)]
    · rw [if_neg h2]
      by_cases h3 : c < 0x10000
      · rw [if_pos h3]
        simp only [List.cons_append, List.nil_append, decodeUtf8Step]
        have hq : c / 4096 < 16 := by omega
        have hm1 : (c / 64) % 64 < 64 := Nat.mod_lt _ (by norm_num)
        have hm0 : c % 64 < 64 := Nat.mod_lt _ (by norm_num)
        have hA : ¬ (0xE0 + c / 4096 < 0x80) := by omega
        have hB : ¬ (0xE0 + c / 4096 < 0xC0) := by omega
        have hC : ¬ (0xE0 + c / 4096 < 0xE0) := by omega
        have hD : 0xE0 + c / 4096 < 0xF0 := by omega
        rw [if_neg hA, if_neg hB, if_neg hC, if_pos hD]
        simp only [decodeUtf8Three]
        have hE : (0x80 ≤ 0x80 + (c / 64) % 64 ∧ 0x80 + (c / 64) % 64 < 0xC0)
            ∧ 0x80 ≤ 0x80 + c % 64 ∧ 0x80 + c % 64 < 0xC0 :=
          ⟨⟨by omega, by omega⟩, by omega, by omega⟩
        have hX : (0xE0 + c / 4096 - 0xE0) * 4096 + (0x80 + (c / 64) % 64 - 0x80) * 64
            + (0x80 + c % 64 - 0x80) = c := by omega
        rw [if_pos hE, hX, if_pos ⟨by omega, hs⟩]
      · rw [if_neg h3]
        simp only [List.cons_append, List.nil_append, decodeUtf8Step]
        have hq : c / 262144 < 8 := by omega
        have hm2 : (c / 4096) % 64 < 64 := Nat.mod_lt _ (by norm_num)
        have hm1 : (c / 64) % 64 < 64 := Nat.mod_lt _ (by norm_num)
        have hm0 : c % 64 < 64 := Nat.mod_lt _ (by norm_num)
        have hA : ¬ (0xF0 + c / 262144 < 0x80) := by omega
        have hB : ¬ (0xF0 + c / 262144 < 0xC0) := by omega
        have hC : ¬ (0xF0 + c / 262144 < 0xE0) := by omega
        have hD : ¬ (0xF0 + c / 262144 < 0xF0) := by omega
        have hF : 0xF0 + c / 262144 < 0xF8 := by omega
        rw [if_neg hA, if_neg hB, if_neg hC, if_neg hD, if_pos hF]
        simp only [decodeUtf8Four]
        have hE : (0x80 ≤ 0x80 + (c / 4096) % 64 ∧ 0x80 + (c / 4096) % 64 < 0xC0)
            ∧ (0x80 ≤ 0x80 + (c / 64) % 64 ∧ 0x80 + (c / 64) % 64 < 0xC0)
            ∧ 0x80 ≤ 0x80 + c % 64 ∧ 0x80 + c % 64 < 0xC0 :=
          ⟨⟨by omega, by omega⟩, ⟨by omega, by omega⟩, by omega, by omega⟩
        have hX : (0xF0 + c / 262144 - 0xF0) * 262144 + (0x80 + (c / 4096) % 64 - 0x80) * 4096
            + (0x80 + (c / 64) % 64 - 0x80) * 64 + (0x80 + c % 64 - 0x80) = c := by omega
        rw [if_pos hE, hX, if_pos ⟨by omega, by omega⟩]

theorem decodeUtf8Aux_encode :
    ∀ (cs : List Nat) (fuel : Nat), (∀ c ∈ cs, ValidScalar c) →
      (encodeUtf8 cs).length ≤ fuel → decodeUtf8Aux fuel (encodeUtf8 cs) = some cs := by
  intro cs
  induction cs with
  | nil =>
    intro fuel _ _
    cases fuel <;> rfl
  | cons c cs' ih =>
    intro fuel hval hlen
    have hvc : ValidScalar c := hval c (by simp)
    obtain ⟨x, xs, hx⟩ : ∃ x xs, encodeUtf8Char c = x :: xs := by
      cases hE : encodeUtf8Char c with
      | nil => exact absurd hE (encodeUtf8Char_ne_nil c)
      | cons x xs => exact ⟨x, xs, rfl⟩
    have henc : encodeUtf8 (c :: cs') = x :: (xs ++ encodeUtf8 cs') := by
      show encodeUtf8Char c ++ encodeUtf8 cs' = _
      rw [hx]
      rfl
    obtain ⟨k, rfl⟩ : ∃ k, fuel = k + 1 := by
      rw [henc] at hlen
      cases fuel with
      | zero => simp at hlen
      | succ k => exact ⟨k, rfl⟩
    have hcat : x :: (xs ++ encodeUtf8 cs') = encodeUtf8Char c ++ encodeUtf8 cs' := by
      rw [hx]
      rfl
    rw [henc]
    unfold decodeUtf8Aux
    rw [hcat, decodeUtf8Step_encodeChar hvc]
    have hlen' : (encodeUtf8 cs').length ≤ k := by
      rw [henc] at hlen
      simp at hlen
      omega
    rw [Option.some_bind]
    show (decodeUtf8Aux k (encodeUtf8 cs')).map (fun cs => c :: cs) = _
    rw [ih k (fun g hg => hval g (List.mem_cons_of_mem _ hg)) hlen']
    rfl

theorem decodeUtf8_encode (cs : List Nat) (h : ∀ c ∈ cs, ValidScalar c) :
    decodeUtf8 (encodeUtf8 cs) = some cs :=
  decodeUtf8Aux_encode cs _ h (le_refl _)

theorem decodeUtf16Step_encodeChar {c : Nat} (h : ValidScalar c) (t : List Nat) :
    decodeUtf16Step (encodeUtf16Char c ++ t) = some (c, t) := by
  obtain ⟨hlt, hs⟩ := h
  unfold encodeUtf16Char
  by_cases h1 : c < 0x10000
  · rw [if_pos h1]
    simp only [List.cons_append, List.nil_append, decodeUtf16Step]
    have hcond : c < 0xD800 ∨ (0xE000 ≤ c ∧ c < 0x10000) := by
      rcases hs with h | h
      · exact Or.inl h
      · exact Or.inr ⟨h, h1⟩
    rw [if_pos hcond]
  · rw [if_neg h1]
    simp only [List.cons_append, List.nil_append, decodeUtf16Step]
    have hq : (c - 0x10000) / 0x400 < 0x400 := by omega
    have hr : (c - 0x10000) % 0x400 < 0x400 := Nat.mod_lt _ (by norm_num)
    have hA : ¬ (0xD800 + (c - 0x10000) / 0x400 < 0xD800
        ∨ (0xE000 ≤ 0xD800 + (c - 0x10000) / 0x400
           ∧ 0xD800 + (c - 0x10000) / 0x400 < 0x10000)) := by
      rintro (hc | ⟨hc1, hc2⟩) <;> omega
    have hB : 0xD800 ≤ 0xD800 + (c - 0x10000) / 0x400
        ∧ 0xD800 + (c - 0x10000) / 0x400 < 0xDC00 := ⟨by omega, by omega⟩
    rw [if_neg hA, if_pos hB]
    simp only [decodeUtf16Pair]
    have hC : 0xDC00 ≤ 0xDC00 + (c - 0x10000) % 0x400
        ∧ 0xDC00 + (c - 0x10000) % 0x400 < 0xE000 := ⟨by omega, by omega⟩
    have hX : 0x10000 + (0xD800 + (c - 0x10000) / 0x400 - 0xD800) * 0x400
        + (0xDC00 + (c - 0x10000) % 0x400 - 0xDC00) = c := by omega
    rw [if_pos hC, hX]

theorem decodeUtf16Aux_encode :
    ∀ (cs : List Nat) (fuel : Nat), (∀ c ∈ cs, ValidScalar c) →
      (encodeUtf16 cs).length ≤ fuel → decodeUtf16Aux fuel (encodeUtf16 cs) = some cs := by
  intro cs
  induction cs with
  | nil =>
    intro fuel _ _
    cases fuel <;> rfl
  | cons c cs' ih =>
    intro fuel hval hlen
    have hvc : ValidScalar c := hval c (by simp)
    obtain ⟨x, xs, hx⟩ : ∃ x xs, encodeUtf16Char c = x :: xs := by
      cases hE : encodeUtf16Char c with
      | nil => exact absurd hE (encodeUtf16Char_ne_nil c)
      | cons x xs => exact ⟨x, xs, rfl⟩
    have henc : encodeUtf16 (c :: cs') = x :: (xs ++ encodeUtf16 cs') := by
      show encodeUtf16Char c ++ encodeUtf16 cs' = _
      rw [hx]
      rfl
    obtain ⟨k, rfl⟩ : ∃ k, fuel = k + 1 := by
      rw [henc] at hlen
      cases fuel with
      | zero => simp at hlen
      | succ k => exact ⟨k, rfl⟩
    have hcat : x :: (xs ++ encodeUtf16 cs') = encodeUtf16Char c ++ encodeUtf16 cs' := by
      rw [hx]
      rfl
    rw [henc]
    unfold decodeUtf16Aux
    rw [hcat, decodeUtf16Step_encodeChar hvc]
    have hlen' : (encodeUtf16 cs').length ≤ k := by
      rw [henc] at hlen
      simp at hlen
      omega
    rw [Option.some_bind]
    show (decodeUtf16Aux k (encodeUtf16 cs')).map (fun cs => c :: cs) = _
    rw [ih k (fun g hg => hval g (List.mem_cons_of_mem _ hg)) hlen']
    rfl

theorem decodeUtf16_encode (cs : List Nat) (h : ∀ c ∈ cs, ValidScalar c) :
    decodeUtf16 (encodeUtf16 cs) = some cs :=
  decodeUtf16Aux_encode cs _ h (le_refl _)

theorem encodeUtf8_cons_ne (c : Nat) (cs : List Nat) :
    (encodeUtf8 (c :: cs)).isEmpty = false := by
  show (encodeUtf8Char c ++ encodeUtf8 cs).isEmpty = false
  cases hE : encodeUtf8Char c with
  | nil => exact absurd hE (encodeUtf8Char_ne_nil c)
  | cons x xs => rfl

theorem encodeUtf16_cons_ne (c : Nat) (cs : List Nat) :
    (encodeUtf16 (c :: cs)).isEmpty = false := by
  show (encodeUtf16Char c ++ encodeUtf16 cs).isEmpty = false
  cases hE : encodeUtf16Char c with
  | nil => exact absurd hE (encodeUtf16Char_ne_nil c)
  | cons x xs => rfl

/-- **C5**: encoding round-trip: for every valid UTF-8 string `s` (the UTF-8
encoding of a sequence of valid Unicode scalar values), including the empty
string, `utf8ToWide s` succeeds with a wide string `w` and `wideToUtf8 w`
succeeds with `s` itself. -/
theorem utf8_roundtrip :
    ∀ s : List Nat, ValidUtf8 s →
      ∃ w : List Nat, utf8ToWide s = .ok w ∧ wideToUtf8 w = .ok s := by
  rintro s ⟨cs, hval, rfl⟩
  cases cs with
  | nil => exact ⟨[], rfl, rfl⟩
  | cons c cs' =>
    have hd8 := decodeUtf8_encode (c :: cs') hval
    have hd16 := decodeUtf16_encode (c :: cs') hval
    refine ⟨encodeUtf16 (c :: cs'), ?_, ?_⟩
    · unfold utf8ToWide
      rw [if_neg (by simp [encodeUtf8_cons_ne]), hd8]
    · unfold wideToUtf8
      rw [if_neg (by simp [encodeUtf16_cons_ne]), hd16]

/-- Witness for C5: the round trip applied to the UTF-8 encoding of
`"H中😀"` (one 1-byte, one 3-byte and one 4-byte scalar). -/
theorem utf8_roundtrip_witness :
    ∃ w : List Nat, utf8ToWide (encodeUtf8 [72, 0x4E2D, 0x1F600]) = .ok w
      ∧ wideToUtf8 w = .ok (encodeUtf8 [72, 0x4E2D, 0x1F600]) :=
  utf8_roundtrip (encodeUtf8 [72, 0x4E2D, 0x1F600])
    ⟨[72, 0x4E2D, 0x1F600], by decide, rfl⟩
